import Mathlib

/-!
Verification development for the secp256k1 key management and
recoverable-signature subsystem of the repository (src/key.cpp).

The C++ code is shallowly embedded:
* byte vectors (`std::vector<unsigned char>`) become `List Nat`;
* OpenSSL bignums become `Nat` (`BN_bin2bn` / `BN_bn2bin` become
  `bytesToNat` / `natToBEBytes`);
* the elliptic-curve primitive library (points, `EC_POINT_mul`,
  decompression, point serialization) is abstracted into the `ECModel`
  class: an additive commutative group together with the constants and
  primitive operations the C++ code calls;
* C++ methods that mutate a `CKey` become functions taking and returning
  an explicit `CKeyState`; a method that can throw returns an
  `Except KeyError` value paired with the post-call state;
* reads past the end of a vector (undefined behaviour in C++) are made
  explicit: parsing functions return `Except Unit _` where the `.error`
  case marks an out-of-bounds access.
-/

namespace MagiKey

/-! ## Byte-string and bignum helpers (OpenSSL BN primitives) -/

/-- `BN_bin2bn`: interpret a byte string as a big-endian natural number. -/
def bytesToNat (l : List Nat) : Nat :=
  l.foldl (fun a b => a * 256 + b) 0

/-- Big-endian base-`base` digits of `n`, written with explicit fuel so
that the kernel can evaluate it (`Nat.digits` recurses by
well-foundedness and does not reduce definitionally). -/
def bnDigitsAux (base : Nat) : Nat → Nat → List Nat
  | 0, _ => []
  | fuel + 1, n => if n = 0 then [] else bnDigitsAux base fuel (n / base) ++ [n % base]

/-- `BN_bn2bin`: the minimal big-endian byte representation of a natural
number (no leading zero bytes; the empty string for 0). -/
def natToBEBytes (n : Nat) : List Nat :=
  bnDigitsAux 256 n n

/-- `BN_num_bits`. -/
def numBits (n : Nat) : Nat :=
  (bnDigitsAux 2 n n).length

/-- `BN_num_bytes`. -/
def numBytes (n : Nat) : Nat :=
  (bnDigitsAux 256 n n).length

/-- Left-pad a byte string with zero bytes to width `w` (the effect of
writing `BN_bn2bin` output right-aligned into a zero-initialised buffer
of `w` bytes). -/
def padTo (w : Nat) (l : List Nat) : List Nat :=
  List.replicate (w - l.length) 0 ++ l

/-! ## DER length parsing and re-encoding (key.cpp, ParseLength /
EncodeLength / NormalizeSignature / CKey::Verify) -/

/-- The loop body of `ParseLength` (key.cpp:432-441): read `k` further
length bytes starting at position `pos`, accumulating into `acc`.
`*it` is an `unsigned char`, so the C++ accumulator update
`(nLength << 8) | *it` equals `acc * 256 + byte`.  Returns `none` when
the iterator reaches the end of the vector or the accumulated length
exceeds `0x7fffffff`. -/
def parseLenBytes (l : List Nat) (pos : Nat) : Nat → Nat → Option Nat
  | 0, acc => some acc
  | k + 1, acc =>
    match l.get? pos with
    | none => none
    | some b =>
      let acc2 := acc * 256 + b
      if acc2 > 0x7fffffff then none
      else parseLenBytes l (pos + 1) k acc2

/-- `ParseLength` (key.cpp:409-444) reading at position `pos` of `l`:
returns the decoded length and the size of the length field.  Short form
if the top bit of the first byte is clear; otherwise long form with up
to 8 length bytes. -/
def parseLength (l : List Nat) (pos : Nat) : Option (Nat × Nat) :=
  match l.get? pos with
  | none => none
  | some b0 =>
    if b0 &&& 0x80 = 0 then some (b0, 1)
    else
      let k := b0 &&& 0x7f
      if k > 8 then none
      else
        match parseLenBytes l (pos + 1) k 0 with
        | none => none
        | some n => some (n, 1 + k)

/-- `EncodeLength` (key.cpp:446-460): one byte for lengths below `0x80`,
otherwise a fixed five-byte field `0x84` followed by the length on four
bytes. -/
def encodeLength (n : Nat) : List Nat :=
  if n < 0x80 then [n]
  else [0x84, (n >>> 24) &&& 0xff, (n >>> 16) &&& 0xff, (n >>> 8) &&& 0xff, n &&& 0xff]

/-- The parsing half of `NormalizeSignature` (key.cpp:462-492): locate the
`r` and `s` INTEGER bodies.  Returns `.error ()` when the C++ code would
read past the end of the vector: the copies
`R(begin + nRDataStart, begin + nRDataStart + nRLength)` and
`S(begin + nSDataStart, begin + nSDataStart + nSLength)` are built
without any check that the declared length fits in the remaining bytes.
On success, returns the `r` body, the `s` body and the position just
after the `s` body. -/
def derParse (v : List Nat) : Except Unit (Option (List Nat × List Nat × Nat)) :=
  if v.length < 2 ∨ v.headI ≠ 0x30 then .ok none
  else
    match parseLength v 1 with
    | none => .ok none
    | some (_nTotalLength, nTotalLengthSize) =>
      let nRStart := 1 + nTotalLengthSize
      if v.length < nRStart + 2 ∨ v.getD nRStart 0 ≠ 0x02 then .ok none
      else
        match parseLength v (nRStart + 1) with
        | none => .ok none
        | some (nRLength, nRLengthSize) =>
          let nRDataStart := nRStart + 1 + nRLengthSize
          if v.length < nRDataStart + nRLength then .error ()
          else
            let r := (v.drop nRDataStart).take nRLength
            let nSStart := nRStart + 1 + nRLengthSize + nRLength
            if v.length < nSStart + 2 ∨ v.getD nSStart 0 ≠ 0x02 then .ok none
            else
              match parseLength v (nSStart + 1) with
              | none => .ok none
              | some (nSLength, nSLengthSize) =>
                let nSDataStart := nSStart + 1 + nSLengthSize
                if v.length < nSDataStart + nSLength then .error ()
                else
                  let s := (v.drop nSDataStart).take nSLength
                  .ok (some (r, s, nSDataStart + nSLength))

/-- The re-encoding half of `NormalizeSignature` (key.cpp:494-513). -/
def reencode (r s : List Nat) : List Nat :=
  let vchR := encodeLength r.length
  let vchS := encodeLength s.length
  let total := 1 + vchR.length + r.length + 1 + vchS.length + s.length
  0x30 :: encodeLength total ++ (0x02 :: vchR ++ r) ++ (0x02 :: vchS ++ s)

/-- `NormalizeSignature` (key.cpp:462-514).  `.ok none` is the C++
`return false`; `.error ()` marks an out-of-bounds read. -/
def NormalizeSignature (v : List Nat) : Except Unit (Option (List Nat)) :=
  match derParse v with
  | .error e => .error e
  | .ok none => .ok none
  | .ok (some (r, s, _)) => .ok (some (reencode r s))

/-- `CKey::Verify` (key.cpp:516-551).  The OpenSSL strict decoder
`d2i_ECDSA_SIG`, re-encoder `i2d_ECDSA_SIG` and `ECDSA_verify` (which
also consumes the digest and the public key) are pure external functions
and are taken as parameters. -/
def Verify (d2i : List Nat → Option (Nat × Nat)) (i2d : Nat × Nat → List Nat)
    (ecverify : List Nat → Bool) (vchSigParam : List Nat) : Except Unit Bool :=
  match NormalizeSignature vchSigParam with
  | .error e => .error e
  | .ok none => .ok false
  | .ok (some vchSig) =>
    if vchSig = [] then .ok false
    else
      match d2i vchSig with
      | none => .ok false
      | some rs =>
        let der := i2d rs
        if der.length = 0 then .ok false
        else .ok (ecverify der)

/-! ## The elliptic-curve primitive library

The C++ code delegates all point and field arithmetic to OpenSSL
(`EC_POINT_mul`, `EC_POINT_set_compressed_coordinates_GFp`,
`i2o_ECPublicKey`, `o2i_ECPublicKey`, ...).  `ECModel` abstracts that
library: `Point` is the type of curve points (the point at infinity is
the group zero — on secp256k1 the cofactor is 1, so the whole point
group is cyclic of order `n`), `G` the generator, `n` the group order,
`p` the field prime, `degree` the field bit size.  `liftX x odd`
models point decompression from an x-coordinate and a y-parity bit,
`ser` models `i2o_ECPublicKey` under a conversion form, `o2i` models
`o2i_ECPublicKey`.  `ser_inj` records that distinct points never share
a serialization (compressed encodings start `0x02`/`0x03` and have 33
bytes, uncompressed start `0x04` and have 65 bytes). -/
class ECModel (Point : Type) extends AddCommGroup Point where
  G : Point
  n : Nat
  p : Nat
  degree : Nat
  liftX : Nat → Bool → Option Point
  ser : Point → Bool → List Nat
  o2i : List Nat → Option Point
  n_pos : 0 < n
  ser_inj : ∀ P Q b c, ser P b = ser Q c → P = Q

/-- `BN_mod_inverse`: the inverse of `a` modulo `m` in `[0, m)`, or
`none` when `a` is not invertible modulo `m`. -/
def modInv (a m : Nat) : Option Nat :=
  (List.range m).find? (fun x => a * x % m = 1)

/-- Outcome of `ECDSA_SIG_recover_key_GFp`: `ret = 1` with the public
key set to `Q`, `ret = 0` (rejection), or a negative `ret` (the
reachable case is `BN_mod_inverse` failing on a non-invertible `r`). -/
inductive RecResult (Point : Type) where
  | ok (Q : Point)
  | reject
  | err
  deriving DecidableEq

/-- The digest-to-scalar conversion inside `ECDSA_SIG_recover_key_GFp`
(key.cpp:106-109): `BN_bin2bn` on the message bytes, then a right shift
when the digest is longer than the field bit size. -/
def digestToScalar (Point : Type) [ECModel Point] (msg : List Nat) : Nat :=
  let e := bytesToNat msg
  if 8 * msg.length > ECModel.degree Point then
    e >>> (8 - ECModel.degree Point % 8)
  else e

/-- `ECDSA_SIG_recover_key_GFp` (key.cpp:56-133), SEC1 4.1.6 public-key
recovery.  Steps, with `N` the group order: candidate x-coordinate
`x = N * (recid / 2) + r` (`BN_copy` order, `BN_mul_word`, `BN_add`);
reject if `x` is not below the field prime; decompress `R` with
y-parity `recid % 2`; under `check`, reject unless `order * R` is the
point at infinity; finally `Q = eor * G + sor * R` via `EC_POINT_mul`
where `rr` is the inverse of `r` mod `N`, `sor = s * rr mod N` and
`eor = (0 - e) * rr mod N`. -/
def ECDSA_SIG_recover_key_GFp (Point : Type) [ECModel Point] [DecidableEq Point]
    (sig_r sig_s : Nat) (msg : List Nat) (recid : Nat) (check : Bool) :
    RecResult Point :=
  let i := recid / 2
  let N := ECModel.n Point
  let x := N * i + sig_r
  if ECModel.p Point ≤ x then .reject
  else
    match @ECModel.liftX Point _ x (recid % 2 = 1) with
    | none => .reject
    | some R =>
      if check = true ∧ ¬ (N • R = 0) then .reject
      else
        let e := digestToScalar Point msg
        let e2 := (N - e % N) % N
        match modInv sig_r N with
        | none => .err
        | some rr =>
          let sor := sig_s * rr % N
          let eor := e2 * rr % N
          .ok (eor • ECModel.G + sor • R)

/-- Modelled from the spec (section 4.5, SEC1 4.1.6), for comparison
with the code: `i = j div 2`; `x = r + i * n`, rejected when `x ≥ p`;
decompress `R` from `x` and parity `j mod 2`; under `check` require
`n * R` to be the point at infinity; return
`Q = r⁻¹ * (s * R − e * G)` with the inverse of `r` taken mod `n`. -/
def recoverSEC1 (Point : Type) [ECModel Point] [DecidableEq Point]
    (sig_r sig_s : Nat) (msg : List Nat) (recid : Nat) (check : Bool) :
    Option Point :=
  let N := ECModel.n Point
  let x := sig_r + (recid / 2) * N
  if ECModel.p Point ≤ x then none
  else
    match @ECModel.liftX Point _ x (recid % 2 = 1) with
    | none => none
    | some R =>
      if check = true ∧ ¬ (N • R = 0) then none
      else
        match modInv sig_r N with
        | none => none
        | some rr =>
          let e := digestToScalar Point msg
          some ((rr : ℤ) • ((sig_s : ℤ) • R - (e : ℤ) • @ECModel.G Point _))

/-! ## CKey state and methods -/

/-- The contents of an OpenSSL `EC_KEY` handle: optional private scalar,
optional public point, and the point conversion form
(`EC_KEY_set_conv_form`). -/
structure PKeyState (Point : Type) where
  priv : Option Nat
  pub : Option Point
  conv : Bool
  deriving DecidableEq

/-- A freshly allocated `EC_KEY_new_by_curve_name(NID_secp256k1)`. -/
def freshPKey (Point : Type) : PKeyState Point :=
  ⟨none, none, false⟩

/-- The fields of a `CKey` object (key.h): the `EC_KEY` handle plus the
`fSet` and `fCompressedPubKey` flags. -/
structure CKeyState (Point : Type) where
  pkey : PKeyState Point
  fSet : Bool
  fCompressedPubKey : Bool
  deriving DecidableEq

/-- `CKey::CKey()` / `CKey::Reset()` (key.cpp:141-156): fresh handle,
`fSet = false`, `fCompressedPubKey = false`. -/
def initKey (Point : Type) : CKeyState Point :=
  ⟨freshPKey Point, false, false⟩

/-- One error value per `throw key_error(...)` site reached in the
embedded methods (the spec calls these `InvalidKeyMaterial` /
`CryptoFailure` / `RecoveryExhausted`). -/
inductive KeyError where
  | secretWrongSize      -- CKey::SetSecret : secret must be 32 bytes
  | noPrivateKey         -- CKey::GetSecret : EC_KEY_get0_private_key failed
  | bufferOverflow       -- CKey::GetSecret : BN_bn2bin would write before the buffer
  | noPublicKey          -- CKey::GetPubKey : i2o_ECPublicKey failed
  | recoveryExhausted    -- CKey::SignCompact : unable to construct recoverable key
  deriving DecidableEq

/-- `CKey::SetCompressedPubKey` (key.cpp:135-139), always called with
its default argument `true` by every call site in key.cpp: sets the
conversion form to compressed and `fCompressedPubKey` to `true`. -/
def SetCompressedPubKey {Point : Type} (st : CKeyState Point) : CKeyState Point :=
  { st with pkey := { st.pkey with conv := true }, fCompressedPubKey := true }

/-- `EC_KEY_regenerate_key` (key.cpp:17-51): `EC_POINT_mul` derives the
public point `priv * G` (total for every scalar, including 0 and values
at or above the group order), then both halves are installed in the
handle. -/
def EC_KEY_regenerate_key {Point : Type} [ECModel Point]
    (pk : PKeyState Point) (priv : Nat) : PKeyState Point :=
  { pk with priv := some priv, pub := some (priv • @ECModel.G Point _) }

/-- `CKey::SetSecret` (key.cpp:221-242).  The old handle is freed and
replaced first; then the 32-byte length check can throw; on the success
path `fSet` becomes true and the compressed flag is set when requested
or when it was already set. -/
def SetSecret {Point : Type} [ECModel Point]
    (vchSecret : List Nat) (fCompressed : Bool) (st : CKeyState Point) :
    Except KeyError Bool × CKeyState Point :=
  let st1 := { st with pkey := freshPKey Point }
  if vchSecret.length ≠ 32 then (.error .secretWrongSize, st1)
  else
    let bn := bytesToNat vchSecret
    let st2 := { st1 with pkey := EC_KEY_regenerate_key st1.pkey bn, fSet := true }
    if fCompressed || st2.fCompressedPubKey then (.ok true, SetCompressedPubKey st2)
    else (.ok true, st2)

/-- `CKey::GetSecret` (key.cpp:244-257): the private scalar written
right-aligned into a 32-byte zero buffer, plus the compressed flag.
When the handle holds no private key the C++ falls over before its own
NULL check (`BN_num_bytes` on NULL); when the scalar needs more than 32
bytes `BN_bn2bin` writes outside the buffer; both are error cases. -/
def GetSecret {Point : Type} (st : CKeyState Point) :
    Except KeyError (List Nat × Bool) :=
  match st.pkey.priv with
  | none => .error .noPrivateKey
  | some d =>
    if 32 < (natToBEBytes d).length then .error .bufferOverflow
    else .ok (padTo 32 (natToBEBytes d), st.fCompressedPubKey)

/-- `CKey::GetPubKey` (key.cpp:286-296): serialize the public point
under the conversion form of the handle. -/
def GetPubKey {Point : Type} [ECModel Point] (st : CKeyState Point) :
    Except KeyError (List Nat) :=
  match st.pkey.pub with
  | none => .error .noPublicKey
  | some P => .ok (ECModel.ser P st.pkey.conv)

/-- `CKey::SetPubKey` (key.cpp:271-284): on parse success install the
point and set `fSet` (and the compressed flag when the encoding is 33
bytes long); on failure abandon the handle and `Reset()`. -/
def SetPubKey {Point : Type} [ECModel Point]
    (vchPubKey : List Nat) (st : CKeyState Point) :
    Except KeyError Bool × CKeyState Point :=
  match @ECModel.o2i Point _ vchPubKey with
  | some P =>
    let st1 := { st with pkey := { st.pkey with pub := some P }, fSet := true }
    if vchPubKey.length = 33 then (.ok true, SetCompressedPubKey st1)
    else (.ok true, st1)
  | none => (.ok false, initKey Point)

/-- `CKey::SetPrivKey` (key.cpp:198-219): decode a serialized
`ECPrivateKey` blob into the handle and validate it.  The external
OpenSSL decoder `d2i_ECPrivateKey` (which on success fills the handle
with the parsed key material) and `EC_KEY_check_key` are pure external
functions and are taken as parameters, like the OpenSSL callbacks of
`Verify`.  On parse success and a passing key check, the parsed
material is installed and `fSet` becomes true; on parse failure, or
when the parsed key fails `EC_KEY_check_key`, the handle is abandoned
(`pkey = NULL`) and `Reset()` leaves the fresh not-set state. -/
def SetPrivKey {Point : Type}
    (d2i : List Nat → Option (PKeyState Point))
    (check : PKeyState Point → Bool)
    (vchPrivKey : List Nat) (st : CKeyState Point) :
    Except KeyError Bool × CKeyState Point :=
  match d2i vchPrivKey with
  | some pk =>
    if check pk then (.ok true, { st with pkey := pk, fSet := true })
    else (.ok false, initKey Point)
  | none => (.ok false, initKey Point)

/-- `CKey::SetCompactSignature` (key.cpp:370-407): 65-byte length check,
header range check, then the old handle is freed and replaced, the
compressed flag is derived from the header, and the recovery engine
runs with `check = 0`. -/
def SetCompactSignature {Point : Type} [ECModel Point] [DecidableEq Point]
    (hash : List Nat) (vchSig : List Nat) (st : CKeyState Point) :
    Except KeyError Bool × CKeyState Point :=
  if vchSig.length ≠ 65 then (.ok false, st)
  else
    let nV := vchSig.headI
    if nV < 27 ∨ 35 ≤ nV then (.ok false, st)
    else
      let sig_r := bytesToNat ((vchSig.drop 1).take 32)
      let sig_s := bytesToNat ((vchSig.drop 33).take 32)
      let st1 := { st with pkey := freshPKey Point }
      let st2 := if 31 ≤ nV then SetCompressedPubKey st1 else st1
      let recid := (if 31 ≤ nV then nV - 4 else nV) - 27
      match ECDSA_SIG_recover_key_GFp Point sig_r sig_s hash recid false with
      | .ok Q => (.ok true, { st2 with pkey := { st2.pkey with pub := some Q }, fSet := true })
      | _ => (.ok false, st2)

/-- One iteration of the recovery-id search in `CKey::SignCompact`
(key.cpp:337-349): build a throwaway key with the compressed flag
copied from `st`, run recovery with `check = 1`, and when it succeeds
compare the serialized public keys.  `GetPubKey` on a key without a
public point throws, and that exception propagates. -/
def recTry {Point : Type} [ECModel Point] [DecidableEq Point]
    (st : CKeyState Point) (hash : List Nat) (sig_r sig_s : Nat) (i : Nat) :
    Except KeyError Bool :=
  let keyRec0 := { initKey Point with fSet := true }
  let keyRec := if st.fCompressedPubKey then SetCompressedPubKey keyRec0 else keyRec0
  match ECDSA_SIG_recover_key_GFp Point sig_r sig_s hash i true with
  | .ok Q =>
    match GetPubKey st with
    | .error e => .error e
    | .ok own => .ok (decide (ECModel.ser Q keyRec.pkey.conv = own))
  | _ => .ok false

/-- The `for (i=0; i<4; i++)` recovery-id search of `CKey::SignCompact`,
returning the first id whose recovered key serializes like the own
public key. -/
def findRecId {Point : Type} [ECModel Point] [DecidableEq Point]
    (st : CKeyState Point) (hash : List Nat) (sig_r sig_s : Nat) :
    Except KeyError (Option Nat) :=
  match recTry st hash sig_r sig_s 0 with
  | .error e => .error e
  | .ok true => .ok (some 0)
  | .ok false =>
    match recTry st hash sig_r sig_s 1 with
    | .error e => .error e
    | .ok true => .ok (some 1)
    | .ok false =>
      match recTry st hash sig_r sig_s 2 with
      | .error e => .error e
      | .ok true => .ok (some 2)
      | .ok false =>
        match recTry st hash sig_r sig_s 3 with
        | .error e => .error e
        | .ok true => .ok (some 3)
        | .ok false => .ok none

/-- `CKey::SignCompact` (key.cpp:315-364).  `sig_r`, `sig_s` are the
values produced by the randomized external `ECDSA_do_sign`.  `.ok none`
is the C++ `return false` (a signature component of more than 256
bits); `.error .recoveryExhausted` is the throw after the id search
fails; on success the 65-byte compact signature is header byte
`27 + id (+4 when compressed)` followed by `r` and `s`, each written
right-aligned into 32 zero bytes. -/
def SignCompact {Point : Type} [ECModel Point] [DecidableEq Point]
    (st : CKeyState Point) (hash : List Nat) (sig_r sig_s : Nat) :
    Except KeyError (Option (List Nat)) :=
  if numBits sig_r ≤ 256 ∧ numBits sig_s ≤ 256 then
    match findRecId st hash sig_r sig_s with
    | .error e => .error e
    | .ok none => .error .recoveryExhausted
    | .ok (some nRecId) =>
      .ok (some ((nRecId + 27 + if st.fCompressedPubKey then 4 else 0) ::
        (padTo 32 (natToBEBytes sig_r) ++ padTo 32 (natToBEBytes sig_s))))
  else .ok none

/-! ## A small concrete instance of the curve-library model

Used to evaluate the embedded operations on concrete inputs (the
theorems below are generic in the model; witnesses instantiate it).
The additive group of `ZMod 7` stands in for the point group: the
point at infinity is 0, the generator is 1, and every point is killed
by the group order 7, as on a cofactor-1 curve. -/

abbrev Zm := ZMod 7

instance : ECModel Zm where
  G := 1
  n := 7
  p := 1000000007
  degree := 8
  liftX := fun x _ => some (x : Zm)
  ser := fun P b => [if b then 2 else 4, P.val]
  o2i := fun l => if l.length = 33 then some 0 else none
  n_pos := by decide
  ser_inj := by decide

/-! ## Definitions used to state the claims -/

/-- Modelled from the spec: a minimal-length ASN.1 length field uses the
short form (a single byte) below `0x80` and otherwise the smallest
possible number of length bytes after the header byte. -/
def minimalLenEnc (m : Nat) : List Nat :=
  if m < 0x80 then [m] else (0x80 + (natToBEBytes m).length) :: natToBEBytes m

/-- The canonical DER encoding of a signature whose `r` and `s` INTEGER
bodies are short enough for every length field to use the short form. -/
def canonicalSig (r s : List Nat) : List Nat :=
  [0x30, 4 + r.length + s.length, 0x02, r.length] ++ r ++ [0x02, s.length] ++ s

/-- A DER signature accepted by `NormalizeSignature` whose `r` body has
126 bytes, so that the re-encoded content is 131 bytes long and the
outer SEQUENCE gets a five-byte length field. -/
def cexC3 : List Nat :=
  [0x30, 0x81, 0x83, 0x02, 0x7e] ++ List.replicate 126 0x11 ++ [0x02, 0x01, 0x22]

/-! ## Helper lemmas: byte strings and bignums -/

theorem foldl_bytes_acc (l : List Nat) (a : Nat) :
    l.foldl (fun x c => x * 256 + c) a =
      a * 256 ^ l.length + Nat.ofDigits 256 l.reverse := by
  induction l generalizing a with
  | nil => simp [Nat.ofDigits]
  | cons b t ih =>
    simp only [List.foldl_cons, List.length_cons, List.reverse_cons, ih]
    rw [Nat.ofDigits_append]
    simp [Nat.ofDigits]
    ring

theorem bytesToNat_eq_ofDigits (l : List Nat) :
    bytesToNat l = Nat.ofDigits 256 l.reverse := by
  unfold bytesToNat
  simpa using foldl_bytes_acc l 0

theorem bnDigitsAux_eq (base : Nat) (hb : 2 ≤ base) :
    ∀ fuel n, n ≤ fuel → bnDigitsAux base fuel n = (Nat.digits base n).reverse := by
  intro fuel
  induction fuel with
  | zero =>
    intro n hn
    have h0 : n = 0 := by omega
    subst h0
    simp [bnDigitsAux]
  | succ f ih =>
    intro n hn
    by_cases h0 : n = 0
    · subst h0; simp [bnDigitsAux]
    · unfold bnDigitsAux
      rw [if_neg h0]
      have hdiv : n / base ≤ f := by
        have : n / base < n := Nat.div_lt_self (Nat.pos_of_ne_zero h0) (by omega)
        omega
      rw [ih (n / base) hdiv,
        Nat.digits_def' (by omega : 1 < base) (Nat.pos_of_ne_zero h0)]
      simp

theorem natToBEBytes_eq_digits (n : Nat) :
    natToBEBytes n = (Nat.digits 256 n).reverse :=
  bnDigitsAux_eq 256 (by norm_num) n n le_rfl

theorem numBits_eq_digits (n : Nat) :
    numBits n = (Nat.digits 2 n).length := by
  rw [numBits, bnDigitsAux_eq 2 (by norm_num) n n le_rfl, List.length_reverse]

theorem bytesToNat_natToBEBytes (d : Nat) :
    bytesToNat (natToBEBytes d) = d := by
  rw [bytesToNat_eq_ofDigits, natToBEBytes_eq_digits, List.reverse_reverse,
    Nat.ofDigits_digits]

theorem bytesToNat_replicate_zero (k : Nat) (l : List Nat) :
    bytesToNat (List.replicate k 0 ++ l) = bytesToNat l := by
  induction k with
  | zero => rfl
  | succ m ih =>
    simpa [bytesToNat, List.replicate_succ] using ih

theorem bytesToNat_padTo (w : Nat) (d : Nat) :
    bytesToNat (padTo w (natToBEBytes d)) = d := by
  rw [padTo, bytesToNat_replicate_zero, bytesToNat_natToBEBytes]

theorem digits_length_le_iff (b n k : Nat) (hb : 1 < b) :
    (Nat.digits b n).length ≤ k ↔ n < b ^ k := by
  rcases eq_or_ne n 0 with h0 | h0
  · simp [h0, Nat.pos_pow_of_pos, Nat.pos_of_ne_zero]
    exact Nat.pos_pow_of_pos k (Nat.lt_of_lt_of_le Nat.zero_lt_one hb.le)
  · rw [Nat.digits_len b n hb h0, Nat.lt_pow_iff_log_lt hb h0]
    omega

theorem natToBEBytes_length_le (d w : Nat) (h : d < 256 ^ w) :
    (natToBEBytes d).length ≤ w := by
  rw [natToBEBytes_eq_digits, List.length_reverse]
  exact (digits_length_le_iff 256 d w (by norm_num)).mpr h

theorem numBits_le_iff (r k : Nat) : numBits r ≤ k ↔ r < 2 ^ k := by
  rw [numBits_eq_digits]
  exact digits_length_le_iff 2 r k (by norm_num)

theorem padTo_length (w : Nat) (l : List Nat) (h : l.length ≤ w) :
    (padTo w l).length = w := by
  simp [padTo]
  omega

/-! ## Helper lemmas: parsing is unaffected by appended bytes -/

theorem get?_some_lt {v : List Nat} {i b : Nat} (h : v.get? i = some b) :
    i < v.length := by
  by_contra hc
  rw [List.get?_eq_none.mpr (le_of_not_lt hc)] at h
  cases h

theorem get?_append_left {v t : List Nat} {i : Nat} (h : i < v.length) :
    (v ++ t).get? i = v.get? i := by
  rw [List.get?_eq_getElem?, List.get?_eq_getElem?, List.getElem?_append_left h]

theorem getD_append_left {v t : List Nat} {i : Nat} (h : i < v.length) :
    (v ++ t).getD i 0 = v.getD i 0 := by
  simp only [List.getD, get?_append_left h]

theorem headI_append {v : List Nat} (t : List Nat) (h : v ≠ []) :
    (v ++ t).headI = v.headI := by
  cases v with
  | nil => exact absurd rfl h
  | cons a l => rfl

theorem drop_take_append {v t : List Nat} {a b : Nat} (h : a + b ≤ v.length) :
    ((v ++ t).drop a).take b = (v.drop a).take b := by
  rw [List.drop_append_eq_append_drop, Nat.sub_eq_zero_of_le (by omega), List.drop_zero,
    List.take_append_eq_append_take, Nat.sub_eq_zero_of_le (by simp; omega), List.take_zero,
    List.append_nil]

theorem parseLenBytes_append {v : List Nat} (t : List Nat) {pos k acc n : Nat}
    (h : parseLenBytes v pos k acc = some n) :
    parseLenBytes (v ++ t) pos k acc = some n := by
  induction k generalizing pos acc with
  | zero => exact h
  | succ m ih =>
    unfold parseLenBytes at h ⊢
    cases hb : v.get? pos with
    | none => rw [hb] at h; cases h
    | some b =>
      rw [hb] at h
      rw [get?_append_left (get?_some_lt hb), hb]
      dsimp only at h ⊢
      by_cases hbig : acc * 256 + b > 0x7fffffff
      · rw [if_pos hbig] at h; cases h
      · rw [if_neg hbig] at h ⊢
        exact ih h

theorem parseLength_append {v : List Nat} (t : List Nat) {pos : Nat} {r : Nat × Nat}
    (h : parseLength v pos = some r) :
    parseLength (v ++ t) pos = some r := by
  unfold parseLength at h ⊢
  cases hb : v.get? pos with
  | none => rw [hb] at h; cases h
  | some b0 =>
    rw [hb] at h
    rw [get?_append_left (get?_some_lt hb), hb]
    dsimp only at h ⊢
    by_cases hshort : b0 &&& 0x80 = 0
    · rw [if_pos hshort] at h ⊢; exact h
    · rw [if_neg hshort] at h ⊢
      by_cases hk : b0 &&& 0x7f > 8
      · rw [if_pos hk] at h; cases h
      · rw [if_neg hk] at h ⊢
        cases hp : parseLenBytes v (pos + 1) (b0 &&& 0x7f) 0 with
        | none => rw [hp] at h; cases h
        | some n =>
          rw [hp] at h
          rw [parseLenBytes_append t hp]
          exact h

theorem derParse_append {v : List Nat} (t : List Nat)
    {x : List Nat × List Nat × Nat}
    (h : derParse v = .ok (some x)) :
    derParse (v ++ t) = .ok (some x) := by
  have hlen : (v ++ t).length = v.length + t.length := by simp
  unfold derParse at h ⊢
  by_cases h1 : v.length < 2 ∨ v.headI ≠ 0x30
  · rw [if_pos h1] at h; cases h
  · rw [if_neg h1] at h
    push_neg at h1
    have hne : v ≠ [] := by
      intro hv
      rw [hv] at h1
      simp at h1
    have h1' : ¬((v ++ t).length < 2 ∨ (v ++ t).headI ≠ 0x30) := by
      push_neg
      rw [headI_append t hne]
      exact ⟨by omega, h1.2⟩
    rw [if_neg h1']
    cases hp1 : parseLength v 1 with
    | none => rw [hp1] at h; cases h
    | some r1 =>
      rw [hp1] at h
      rw [parseLength_append t hp1]
      obtain ⟨nTL, nTLS⟩ := r1
      dsimp only at h ⊢
      by_cases h2 : v.length < 1 + nTLS + 2 ∨ v.getD (1 + nTLS) 0 ≠ 0x02
      · rw [if_pos h2] at h; cases h
      · rw [if_neg h2] at h
        push_neg at h2
        have h2' : ¬((v ++ t).length < 1 + nTLS + 2 ∨ (v ++ t).getD (1 + nTLS) 0 ≠ 0x02) := by
          push_neg
          rw [getD_append_left (by omega)]
          exact ⟨by omega, h2.2⟩
        rw [if_neg h2']
        cases hp2 : parseLength v (1 + nTLS + 1) with
        | none => rw [hp2] at h; cases h
        | some r2 =>
          rw [hp2] at h
          rw [parseLength_append t hp2]
          obtain ⟨nRL, nRLS⟩ := r2
          dsimp only at h ⊢
          by_cases h3 : v.length < 1 + nTLS + 1 + nRLS + nRL
          · rw [if_pos h3] at h; cases h
          · rw [if_neg h3] at h
            rw [if_neg (by omega)]
            rw [drop_take_append (by omega)]
            by_cases h4 : v.length < 1 + nTLS + 1 + nRLS + nRL + 2 ∨
                v.getD (1 + nTLS + 1 + nRLS + nRL) 0 ≠ 0x02
            · rw [if_pos h4] at h; cases h
            · rw [if_neg h4] at h
              push_neg at h4
              have h4' : ¬((v ++ t).length < 1 + nTLS + 1 + nRLS + nRL + 2 ∨
                  (v ++ t).getD (1 + nTLS + 1 + nRLS + nRL) 0 ≠ 0x02) := by
                push_neg
                rw [getD_append_left (by omega)]
                exact ⟨by omega, h4.2⟩
              rw [if_neg h4']
              cases hp3 : parseLength v (1 + nTLS + 1 + nRLS + nRL + 1) with
              | none => rw [hp3] at h; cases h
              | some r3 =>
                rw [hp3] at h
                rw [parseLength_append t hp3]
                obtain ⟨nSL, nSLS⟩ := r3
                dsimp only at h ⊢
                by_cases h5 : v.length < 1 + nTLS + 1 + nRLS + nRL + 1 + nSLS + nSL
                · rw [if_pos h5] at h; cases h
                · rw [if_neg h5] at h
                  rw [if_neg (by omega)]
                  rw [drop_take_append (by omega)]
                  exact h

/-! ## Helper lemmas: parsing a well-formed length field in place -/

/-- The length encodings accepted by `ParseLength`: the short form (one
byte below `0x80`) or a long form `0x80 + k` followed by `k ≤ 8` value
bytes whose big-endian value stays within `0x7fffffff`. -/
inductive ValidLenEnc : List Nat → Nat → Prop where
  | short (m : Nat) (h : m < 128) : ValidLenEnc [m] m
  | long (k : Nat) (ds : List Nat) (hk : k ≤ 8) (hlen : ds.length = k)
      (hval : bytesToNat ds ≤ 0x7fffffff) :
      ValidLenEnc ((128 + k) :: ds) (bytesToNat ds)

theorem ValidLenEnc.ne_nil {e : List Nat} {m : Nat} (h : ValidLenEnc e m) :
    e ≠ [] := by
  cases h <;> simp

theorem le_foldl_bytes (l : List Nat) (acc : Nat) :
    acc ≤ l.foldl (fun a b => a * 256 + b) acc := by
  induction l generalizing acc with
  | nil => exact le_refl acc
  | cons b tl ih =>
    calc acc ≤ acc * 256 + b := by omega
    _ ≤ tl.foldl (fun a b => a * 256 + b) (acc * 256 + b) := ih _

theorem get?_append_middle (v1 : List Nat) (b : Nat) (w : List Nat) :
    (v1 ++ b :: w).get? v1.length = some b := by
  rw [List.get?_eq_getElem?, List.getElem?_append_right (le_refl _)]
  simp

theorem drop_take_exact (v1 w v2 : List Nat) :
    ((v1 ++ w ++ v2).drop v1.length).take w.length = w := by
  rw [List.append_assoc, List.drop_left, List.take_left]

theorem and_128_of_lt (m : Nat) (h : m < 128) : m &&& 128 = 0 := by
  have hb : ∀ m < 128, m &&& 128 = 0 := by decide
  exact hb m h

theorem and_128_of_hdr (k : Nat) (hk : k ≤ 8) : (128 + k) &&& 128 = 128 := by
  have hb : ∀ k ≤ 8, (128 + k) &&& 128 = 128 := by decide
  exact hb k hk

theorem and_127_of_hdr (k : Nat) (hk : k ≤ 8) : (128 + k) &&& 127 = k := by
  have hb : ∀ k ≤ 8, (128 + k) &&& 127 = k := by decide
  exact hb k hk

theorem parseLenBytes_exact (ds : List Nat) (v1 v2 : List Nat) (acc : Nat)
    (hval : ds.foldl (fun a b => a * 256 + b) acc ≤ 0x7fffffff) :
    parseLenBytes (v1 ++ ds ++ v2) v1.length ds.length acc =
      some (ds.foldl (fun a b => a * 256 + b) acc) := by
  induction ds generalizing v1 acc with
  | nil => rfl
  | cons b tl ih =>
    rw [List.append_assoc, List.cons_append]
    show parseLenBytes (v1 ++ b :: (tl ++ v2)) v1.length (tl.length + 1) acc = _
    unfold parseLenBytes
    rw [get?_append_middle]
    dsimp only
    have hstep : acc * 256 + b ≤ tl.foldl (fun a b => a * 256 + b) (acc * 256 + b) :=
      le_foldl_bytes tl _
    have htot : (b :: tl).foldl (fun a b => a * 256 + b) acc =
        tl.foldl (fun a b => a * 256 + b) (acc * 256 + b) := rfl
    rw [htot] at hval
    rw [if_neg (by omega)]
    have hrw : v1 ++ b :: (tl ++ v2) = (v1 ++ [b]) ++ tl ++ v2 := by simp
    have hpos : v1.length + 1 = (v1 ++ [b]).length := by simp
    rw [hrw, hpos, ih (v1 ++ [b]) (acc * 256 + b) hval, htot]

theorem parseLength_exact {e : List Nat} {m : Nat} (he : ValidLenEnc e m)
    (v1 v2 : List Nat) :
    parseLength (v1 ++ e ++ v2) v1.length = some (m, e.length) := by
  cases he with
  | short m h =>
    unfold parseLength
    rw [List.append_assoc, List.singleton_append, get?_append_middle]
    dsimp only
    rw [if_pos (and_128_of_lt m h)]
    rfl
  | long k ds hk hlen hval =>
    subst hlen
    unfold parseLength
    rw [List.append_assoc, List.cons_append, get?_append_middle]
    dsimp only
    rw [if_neg (by rw [and_128_of_hdr _ hk]; omega), and_127_of_hdr _ hk,
      if_neg (by omega)]
    have hfold : bytesToNat ds = ds.foldl (fun a b => a * 256 + b) 0 := rfl
    have hrw : v1 ++ (128 + ds.length) :: (ds ++ v2) =
        (v1 ++ [128 + ds.length]) ++ ds ++ v2 := by simp
    have hpos : v1.length + 1 = (v1 ++ [128 + ds.length]).length := by simp
    rw [hrw, hpos, parseLenBytes_exact ds (v1 ++ [128 + ds.length]) v2 0
      (by rw [← hfold]; exact hval)]
    dsimp only
    rw [← hfold]
    simp [Nat.add_comm]

/-! ## Helper lemmas: scalar multiples modulo the group order -/

theorem nsmul_mod {Point : Type} [AddCommGroup Point] {N : Nat}
    (hn : ∀ P : Point, N • P = 0) (a : Nat) (P : Point) :
    (a % N) • P = a • P := by
  conv_rhs => rw [← Nat.div_add_mod a N]
  rw [add_nsmul, mul_comm, mul_nsmul, hn, zero_add]

theorem zsmul_congr_mod {Point : Type} [AddCommGroup Point] {N : Nat}
    (hn : ∀ P : Point, N • P = 0) {a b : ℤ} (hab : (N : ℤ) ∣ a - b) (P : Point) :
    a • P = b • P := by
  obtain ⟨k, hk⟩ := hab
  have ha : a = b + N * k := by omega
  rw [ha, add_zsmul, mul_zsmul, natCast_zsmul, hn, add_zero]

/-! ## Helper lemmas: the recovery engine -/

/-- A recovery that succeeds with the order check enabled succeeds with
the same result when the check is skipped: the check only adds a
rejection path. -/
theorem recover_check_relax {Point : Type} [ECModel Point] [DecidableEq Point]
    {sig_r sig_s : Nat} {msg : List Nat} {recid : Nat} {Q : Point}
    (h : ECDSA_SIG_recover_key_GFp Point sig_r sig_s msg recid true = .ok Q) :
    ECDSA_SIG_recover_key_GFp Point sig_r sig_s msg recid false = .ok Q := by
  unfold ECDSA_SIG_recover_key_GFp at h ⊢
  dsimp only at h ⊢
  by_cases h1 : ECModel.p Point ≤ ECModel.n Point * (recid / 2) + sig_r
  · rw [if_pos h1] at h; cases h
  · rw [if_neg h1] at h ⊢
    cases hl : @ECModel.liftX Point _
        (ECModel.n Point * (recid / 2) + sig_r) (decide (recid % 2 = 1)) with
    | none => rw [hl] at h; cases h
    | some R =>
      rw [hl] at h
      dsimp only at h ⊢
      rw [if_neg (by simp : ¬ (false = true ∧ ¬ (ECModel.n Point • R = 0)))]
      by_cases hc : (true = true ∧ ¬ (ECModel.n Point • R = 0))
      · rw [if_pos hc] at h; cases h
      · rw [if_neg hc] at h
        exact h

theorem getD_append_middle (v1 : List Nat) (b : Nat) (w : List Nat) :
    (v1 ++ b :: w).getD v1.length 0 = b := by
  simp only [List.getD, get?_append_middle, Option.getD_some]

/-- Parsing a DER signature assembled from arbitrary `ParseLength`-valid
length fields: the declared total length `LT` is parsed but never
compared against anything, the `r` and `s` bodies are recovered
exactly, and the parse ends at the end of the input. -/
theorem derParse_exact {eT eR eS r s : List Nat} {LT : Nat}
    (hT : ValidLenEnc eT LT) (hR : ValidLenEnc eR r.length)
    (hS : ValidLenEnc eS s.length) :
    derParse (0x30 :: eT ++ 0x02 :: eR ++ r ++ 0x02 :: eS ++ s) =
      .ok (some (r, s, (0x30 :: eT ++ 0x02 :: eR ++ r ++ 0x02 :: eS ++ s).length)) := by
  set v := 0x30 :: eT ++ 0x02 :: eR ++ r ++ 0x02 :: eS ++ s with hv
  have hL : v.length =
      1 + eT.length + 1 + eR.length + r.length + 1 + eS.length + s.length := by
    simp only [hv, List.length_cons, List.length_append]
    omega
  have hTn : eT ≠ [] := hT.ne_nil
  have hTlen : 1 ≤ eT.length := by
    cases eT with
    | nil => exact absurd rfl hTn
    | cons a l => simp
  have hRlen : 1 ≤ eR.length := List.length_pos.mpr hR.ne_nil
  have hSlen : 1 ≤ eS.length := List.length_pos.mpr hS.ne_nil
  have hp1 : parseLength v 1 = some (LT, eT.length) := by
    have h := parseLength_exact hT [0x30] (0x02 :: eR ++ r ++ 0x02 :: eS ++ s)
    rw [(by simp only [List.length_cons, List.length_nil] :
      ([0x30] : List Nat).length = 1)] at h
    rw [(by simp [hv] : ([0x30] ++ eT ++ (0x02 :: eR ++ r ++ 0x02 :: eS ++ s) : List Nat)
      = v)] at h
    exact h
  have hg1 : v.getD (1 + eT.length) 0 = 0x02 := by
    have h := getD_append_middle ([0x30] ++ eT) 0x02 (eR ++ r ++ 0x02 :: eS ++ s)
    rw [(by simp only [List.length_append, List.length_cons, List.length_nil] :
      ([0x30] ++ eT : List Nat).length = 1 + eT.length)] at h
    rw [(by simp [hv] : (([0x30] ++ eT) ++ 0x02 :: (eR ++ r ++ 0x02 :: eS ++ s) : List Nat)
      = v)] at h
    exact h
  have hp2 : parseLength v (1 + eT.length + 1) = some (r.length, eR.length) := by
    have h := parseLength_exact hR ([0x30] ++ eT ++ [0x02]) (r ++ 0x02 :: eS ++ s)
    rw [(by simp only [List.length_append, List.length_cons, List.length_nil] :
      ([0x30] ++ eT ++ [0x02] : List Nat).length = 1 + eT.length + 1)] at h
    rw [(by simp [hv] : (([0x30] ++ eT ++ [0x02]) ++ eR ++ (r ++ 0x02 :: eS ++ s) : List Nat)
      = v)] at h
    exact h
  have hsr : (v.drop (1 + eT.length + 1 + eR.length)).take r.length = r := by
    have h := drop_take_exact ([0x30] ++ eT ++ [0x02] ++ eR) r (0x02 :: eS ++ s)
    rw [(by simp only [List.length_append, List.length_cons, List.length_nil] :
      ([0x30] ++ eT ++ [0x02] ++ eR : List Nat).length = 1 + eT.length + 1 + eR.length)] at h
    rw [(by simp [hv] : (([0x30] ++ eT ++ [0x02] ++ eR) ++ r ++ (0x02 :: eS ++ s) : List Nat)
      = v)] at h
    exact h
  have hg2 : v.getD (1 + eT.length + 1 + eR.length + r.length) 0 = 0x02 := by
    have h := getD_append_middle ([0x30] ++ eT ++ [0x02] ++ eR ++ r) 0x02 (eS ++ s)
    rw [(by simp only [List.length_append, List.length_cons, List.length_nil] :
      ([0x30] ++ eT ++ [0x02] ++ eR ++ r : List Nat).length =
        1 + eT.length + 1 + eR.length + r.length)] at h
    rw [(by simp [hv] : (([0x30] ++ eT ++ [0x02] ++ eR ++ r) ++ 0x02 :: (eS ++ s) : List Nat)
      = v)] at h
    exact h
  have hp3 : parseLength v (1 + eT.length + 1 + eR.length + r.length + 1) =
      some (s.length, eS.length) := by
    have h := parseLength_exact hS ([0x30] ++ eT ++ [0x02] ++ eR ++ r ++ [0x02]) s
    rw [(by simp only [List.length_append, List.length_cons, List.length_nil] :
      ([0x30] ++ eT ++ [0x02] ++ eR ++ r ++ [0x02] : List Nat).length =
        1 + eT.length + 1 + eR.length + r.length + 1)] at h
    rw [(by simp [hv] : (([0x30] ++ eT ++ [0x02] ++ eR ++ r ++ [0x02]) ++ eS ++ s : List Nat)
      = v)] at h
    exact h
  have hss : (v.drop (1 + eT.length + 1 + eR.length + r.length + 1 + eS.length)).take
      s.length = s := by
    have h := drop_take_exact ([0x30] ++ eT ++ [0x02] ++ eR ++ r ++ [0x02] ++ eS) s []
    rw [(by simp only [List.length_append, List.length_cons, List.length_nil] :
      ([0x30] ++ eT ++ [0x02] ++ eR ++ r ++ [0x02] ++ eS : List Nat).length =
        1 + eT.length + 1 + eR.length + r.length + 1 + eS.length)] at h
    rw [(by simp [hv] : (([0x30] ++ eT ++ [0x02] ++ eR ++ r ++ [0x02] ++ eS) ++ s ++ []
      : List Nat) = v)] at h
    exact h
  have hga : ¬ (v.length < 2 ∨ v.headI ≠ 0x30) := by
    push_neg
    refine ⟨by rw [hL]; omega, ?_⟩
    simp [hv]
  have hgb : ¬ (v.length < 1 + eT.length + 2 ∨ v.getD (1 + eT.length) 0 ≠ 0x02) := by
    push_neg
    exact ⟨by rw [hL]; omega, hg1⟩
  have hgc : ¬ (v.length < 1 + eT.length + 1 + eR.length + r.length) := by
    rw [hL]; omega
  have hgd : ¬ (v.length < 1 + eT.length + 1 + eR.length + r.length + 2 ∨
      v.getD (1 + eT.length + 1 + eR.length + r.length) 0 ≠ 0x02) := by
    push_neg
    exact ⟨by rw [hL]; omega, hg2⟩
  have hge : ¬ (v.length <
      1 + eT.length + 1 + eR.length + r.length + 1 + eS.length + s.length) := by
    rw [hL]; omega
  unfold derParse
  rw [if_neg hga, hp1]
  dsimp only
  rw [if_neg hgb, hp2]
  dsimp only
  rw [if_neg hgc, if_neg hgd, hp3]
  dsimp only
  rw [if_neg hge, hsr, hss]
  have hend : 1 + eT.length + 1 + eR.length + r.length + 1 + eS.length + s.length =
      v.length := by rw [hL]
  rw [hend]

/-! ## Claim theorems -/

/-- C1: the claim states that `CKey::Verify` is total on every byte
vector and that the copies of the `r` and `s` integer bodies inside
`NormalizeSignature` never read past the end of the input.  The code
does not satisfy this: on the 4-byte input `30 04 02 7f` the copy of
the `r` body starts at offset 4 with a declared length of `0x7f = 127`
bytes and reads 127 bytes past the end of the vector (the claim is the
intended behaviour and the missing bounds check is a code bug).  The
embedded functions make the out-of-bounds access explicit as
`.error ()`. -/
theorem C1_out_of_bounds_read :
    NormalizeSignature [0x30, 0x04, 0x02, 0x7f] = .error () ∧
    derParse [0x30, 0x04, 0x02, 0x7f] = .error () ∧
    Verify (fun _ => none) (fun _ => []) (fun _ => false)
      [0x30, 0x04, 0x02, 0x7f] = .error () :=
  ⟨rfl, rfl, rfl⟩

/-- C2 counterexample: the claim states that a 32-byte all-zero secret
fails `CKey::SetSecret`.  It does not: the embedded `SetSecret` (whose
only checks are the byte length and the always-succeeding
`EC_KEY_regenerate_key`) returns `true` on the all-zero secret and
marks the key as set, with private scalar 0 installed. -/
theorem C2_counterexample :
    (SetSecret (List.replicate 32 0) false (initKey Zm)).1 = .ok true ∧
    (SetSecret (List.replicate 32 0) false (initKey Zm)).2.fSet = true ∧
    (SetSecret (List.replicate 32 0) false (initKey Zm)).2.pkey.priv = some 0 ∧
    bytesToNat (List.replicate 32 0) = 0 :=
  ⟨rfl, rfl, rfl, rfl⟩

/-- C2 (amended): `CKey::SetSecret` performs no range validation of the
secret at all.  Every 32-byte secret — including the all-zero string
and big-endian values at or above the curve order — is accepted: the
call returns `true`, marks the key set, and installs the raw big-endian
value of the bytes as the private scalar (out-of-range scalars are only
caught later, by `CKey::IsValid`).  Only the byte length is checked:
a secret that is not 32 bytes long throws. -/
theorem C2_no_range_validation {Point : Type} [ECModel Point]
    (secret : List Nat) (c : Bool) (st : CKeyState Point)
    (h : secret.length = 32) :
    (SetSecret secret c st).1 = .ok true ∧
    (SetSecret secret c st).2.fSet = true ∧
    (SetSecret secret c st).2.pkey.priv = some (bytesToNat secret) := by
  unfold SetSecret
  rw [if_neg (by omega)]
  dsimp only
  by_cases hc : (c || st.fCompressedPubKey) = true
  · rw [if_pos hc]
    exact ⟨rfl, rfl, rfl⟩
  · rw [if_neg hc]
    exact ⟨rfl, rfl, rfl⟩

/-- C2 witness: the amended theorem evaluated on a concrete 32-byte
secret. -/
theorem C2_no_range_validation_witness :
    (SetSecret (List.replicate 32 7) true (initKey Zm)).1 = .ok true ∧
    (SetSecret (List.replicate 32 7) true (initKey Zm)).2.fSet = true ∧
    (SetSecret (List.replicate 32 7) true (initKey Zm)).2.pkey.priv =
      some (bytesToNat (List.replicate 32 7)) :=
  C2_no_range_validation (List.replicate 32 7) true (initKey Zm) (by decide)

/-- Normalizing a DER signature whose length fields are any
`ParseLength`-valid encodings yields the canonical short-form encoding,
provided the canonical content fits in short-form lengths. -/
theorem normalize_of_valid {r s eT eR eS : List Nat} {LT : Nat}
    (htot : 4 + r.length + s.length < 0x80)
    (hT : ValidLenEnc eT LT) (hR : ValidLenEnc eR r.length)
    (hS : ValidLenEnc eS s.length) :
    NormalizeSignature (0x30 :: eT ++ 0x02 :: eR ++ r ++ 0x02 :: eS ++ s) =
      .ok (some (canonicalSig r s)) := by
  unfold NormalizeSignature
  rw [derParse_exact hT hR hS]
  dsimp only
  have her : encodeLength r.length = [r.length] := by
    unfold encodeLength
    rw [if_pos (by omega)]
  have hes : encodeLength s.length = [s.length] := by
    unfold encodeLength
    rw [if_pos (by omega)]
  unfold reencode
  rw [her, hes]
  dsimp only [List.length_cons, List.length_nil]
  have harith : 1 + 1 + r.length + 1 + 1 + s.length = 4 + r.length + s.length := by
    omega
  rw [harith]
  have het : encodeLength (4 + r.length + s.length) = [4 + r.length + s.length] := by
    unfold encodeLength
    rw [if_pos (by omega)]
  rw [het]
  unfold canonicalSig
  simp

set_option maxRecDepth 8000 in
/-- C3 counterexample: the claim states that every accepted input is
re-encoded with minimal-length ASN.1 length fields.  On `cexC3` (which
is itself minimally encoded) the re-encoded output carries the
five-byte outer SEQUENCE length field `84 00 00 00 83` produced by
`EncodeLength`, although the minimal encoding of length `0x83 = 131`
is the two-byte field `81 83`. -/
theorem C3_counterexample :
    NormalizeSignature cexC3 =
      .ok (some (0x30 :: encodeLength 131 ++
        (0x02 :: [0x7e] ++ List.replicate 126 0x11) ++ (0x02 :: [0x01] ++ [0x22]))) ∧
    encodeLength 131 = [0x84, 0x00, 0x00, 0x00, 0x83] ∧
    minimalLenEnc 131 = [0x81, 0x83] ∧
    encodeLength 131 ≠ minimalLenEnc 131 := by
  refine ⟨?_, rfl, by decide, by decide⟩
  rfl

/-- C3 (amended): when the `r` body, the `s` body and the re-encoded
content all fit in short-form length fields — as they do for every
canonical ECDSA signature — `NormalizeSignature` maps any re-encoding
whose length fields are padded (`ParseLength`-valid long forms of the
same values) to the identical canonical byte string, and the canonical
string itself is a fixed point.  (For content lengths of `0x80` and
above, `EncodeLength` instead emits a fixed five-byte field, which the
counterexample shows is not minimal.) -/
theorem C3_padded_reencoding_normalizes {r s eT eR eS : List Nat}
    (htot : 4 + r.length + s.length < 0x80)
    (hT : ValidLenEnc eT (1 + eR.length + r.length + 1 + eS.length + s.length))
    (hR : ValidLenEnc eR r.length) (hS : ValidLenEnc eS s.length) :
    NormalizeSignature (0x30 :: eT ++ 0x02 :: eR ++ r ++ 0x02 :: eS ++ s) =
      .ok (some (canonicalSig r s)) ∧
    NormalizeSignature (canonicalSig r s) = .ok (some (canonicalSig r s)) := by
  refine ⟨normalize_of_valid htot hT hR hS, ?_⟩
  have h2 := normalize_of_valid htot
    (ValidLenEnc.short (4 + r.length + s.length) (by omega))
    (ValidLenEnc.short r.length (by omega))
    (ValidLenEnc.short s.length (by omega))
  have hc : canonicalSig r s =
      0x30 :: [4 + r.length + s.length] ++ 0x02 :: [r.length] ++ r ++
        0x02 :: [s.length] ++ s := by
    simp [canonicalSig]
  rw [hc]
  exact h2

/-- C3 witness: the amended theorem applied to the signature with
bodies `r = [5]`, `s = [6]`, with a two-byte padded length field on the
SEQUENCE and on `r`. -/
theorem C3_padded_reencoding_normalizes_witness :
    NormalizeSignature
        (0x30 :: [0x81, 7] ++ 0x02 :: [0x81, 1] ++ [5] ++ 0x02 :: [1] ++ [6]) =
      .ok (some (canonicalSig [5] [6])) ∧
    NormalizeSignature (canonicalSig [5] [6]) = .ok (some (canonicalSig [5] [6])) :=
  C3_padded_reencoding_normalizes (by decide)
    (ValidLenEnc.long 1 [7] (by decide) rfl (by decide))
    (ValidLenEnc.long 1 [1] (by decide) rfl (by decide))
    (ValidLenEnc.short 1 (by decide))

/-- C10: `CKey::Verify` ignores trailing bytes.  When `v` parses as a
complete DER signature (the parsed `s` body ends exactly at the end of
`v`), appending any byte suffix `t` leaves the verdict of `Verify`
unchanged, whatever the OpenSSL decode/re-encode/verify callbacks do:
`NormalizeSignature` never compares the parsed structure against the
input length. -/
theorem C10_trailing_bytes_ignored {v : List Nat} (t : List Nat) {r s : List Nat}
    (h : derParse v = .ok (some (r, s, v.length)))
    (d2i : List Nat → Option (Nat × Nat)) (i2d : Nat × Nat → List Nat)
    (ecverify : List Nat → Bool) :
    Verify d2i i2d ecverify (v ++ t) = Verify d2i i2d ecverify v := by
  unfold Verify NormalizeSignature
  rw [h, derParse_append t h]

/-- C10 witness: a complete two-byte-body signature with two garbage
bytes appended, evaluated at concrete OpenSSL callbacks. -/
theorem C10_trailing_bytes_ignored_witness :
    derParse [0x30, 0x06, 0x02, 0x01, 0x05, 0x02, 0x01, 0x06] =
      .ok (some ([5], [6], 8)) ∧
    Verify (fun l => some (l.length, 1)) (fun rs => [rs.1, rs.2]) (fun _ => true)
        ([0x30, 0x06, 0x02, 0x01, 0x05, 0x02, 0x01, 0x06] ++ [0x99, 0x99]) =
      Verify (fun l => some (l.length, 1)) (fun rs => [rs.1, rs.2]) (fun _ => true)
        [0x30, 0x06, 0x02, 0x01, 0x05, 0x02, 0x01, 0x06] :=
  ⟨rfl, C10_trailing_bytes_ignored (v := [0x30, 0x06, 0x02, 0x01, 0x05, 0x02, 0x01, 0x06])
    [0x99, 0x99] (r := [5]) (s := [6]) rfl _ _ _⟩

/-- C4: `ECDSA_SIG_recover_key_GFp` agrees with the SEC1 4.1.6
formulation `Q = r⁻¹ (s R − e G)` (`recoverSEC1`, written from the
spec): same candidate x-coordinate `r + (j div 2) n` with rejection at
`x ≥ p`, same decompression with y-parity `j mod 2`, same subgroup
check when `check` is set, and the same recovered point.  The model
hypotheses: every point is killed by the group order (true on a
cofactor-1 curve such as secp256k1), and `r` is invertible mod `n` (the
code errors out rather than rejecting when it is not, a case SEC1 does
not reach because signatures have `r` in `[1, n-1]`). -/
theorem C4_recover_follows_SEC1 {Point : Type} [ECModel Point] [DecidableEq Point]
    (hord : ∀ P : Point, ECModel.n Point • P = 0)
    (sig_r sig_s : Nat) (msg : List Nat) (recid : Nat) (check : Bool)
    (hinv : (modInv sig_r (ECModel.n Point)).isSome = true) :
    ECDSA_SIG_recover_key_GFp Point sig_r sig_s msg recid check =
      (match recoverSEC1 Point sig_r sig_s msg recid check with
       | some Q => RecResult.ok Q
       | none => RecResult.reject) := by
  have hNpos : 0 < ECModel.n Point := ECModel.n_pos
  unfold ECDSA_SIG_recover_key_GFp recoverSEC1
  dsimp only
  have hx : sig_r + recid / 2 * ECModel.n Point =
      ECModel.n Point * (recid / 2) + sig_r := by ring
  rw [hx]
  by_cases h1 : ECModel.p Point ≤ ECModel.n Point * (recid / 2) + sig_r
  · rw [if_pos h1, if_pos h1]
  · rw [if_neg h1, if_neg h1]
    cases hl : @ECModel.liftX Point _
        (ECModel.n Point * (recid / 2) + sig_r) (decide (recid % 2 = 1)) with
    | none => rfl
    | some R =>
      dsimp only
      by_cases hc : check = true ∧ ¬ (ECModel.n Point • R = 0)
      · rw [if_pos hc, if_pos hc]
      · rw [if_neg hc, if_neg hc]
        cases hm : modInv sig_r (ECModel.n Point) with
        | none => rw [hm] at hinv; cases hinv
        | some rr =>
          dsimp only
          set N := ECModel.n Point with hN
          set e := digestToScalar Point msg with he
          set A := (N - e % N) % N with hA
          congr 1
          have hemod : e % N < N := Nat.mod_lt _ hNpos
          have hknat : N ∣ A + e := by
            have h2 : (N - e % N) + e % N = N := Nat.sub_add_cancel hemod.le
            have hmodeq : A + e ≡ 0 [MOD N] := by
              calc A + e ≡ (N - e % N) + e [MOD N] :=
                    (Nat.mod_modEq _ _).add_right e
                _ ≡ (N - e % N) + e % N [MOD N] :=
                    Nat.ModEq.add_left _ (Nat.mod_modEq e N).symm
                _ = N := h2
                _ ≡ 0 [MOD N] := Nat.modEq_zero_iff_dvd.mpr dvd_rfl
            exact Nat.modEq_zero_iff_dvd.mp hmodeq
          rw [smul_sub, smul_smul, smul_smul]
          have hRterm : (sig_s * rr % N) • R = ((rr : ℤ) * (sig_s : ℤ)) • R := by
            rw [nsmul_mod hord, ← natCast_zsmul]
            congr 1
            push_cast
            ring
          have hdvd : (N : ℤ) ∣ ((A * rr : ℕ) : ℤ) - (-((rr : ℤ) * (e : ℤ))) := by
            have hform : ((A * rr : ℕ) : ℤ) - (-((rr : ℤ) * (e : ℤ))) =
                ((rr : ℤ)) * (((A : ℕ) : ℤ) + (e : ℤ)) := by
              push_cast
              ring
            rw [hform]
            exact Dvd.dvd.mul_left
              (Int.natCast_dvd_natCast.mpr hknat |>.trans
                (by push_cast; exact dvd_refl _)) rr
          have hGterm : (A * rr % N) • @ECModel.G Point _ =
              (-((rr : ℤ) * (e : ℤ))) • @ECModel.G Point _ := by
            rw [nsmul_mod hord, ← natCast_zsmul]
            exact zsmul_congr_mod hord hdvd _
          rw [hRterm, hGterm, neg_smul, sub_eq_add_neg, add_comm]

/-- C4 witness: the refinement evaluated on the small model at
`r = s = 1`, digest bytes `[1]`, recovery id 0, with the order check
enabled. -/
theorem C4_recover_follows_SEC1_witness :
    ECDSA_SIG_recover_key_GFp Zm 1 1 [1] 0 true =
      (match recoverSEC1 Zm 1 1 [1] 0 true with
       | some Q => RecResult.ok Q
       | none => RecResult.reject) :=
  C4_recover_follows_SEC1 (by decide) 1 1 [1] 0 true (by decide)

/-- C6: `CKey::SetCompactSignature` returns `false` (leaving the object
untouched) for every input that is not 65 bytes long or whose header
byte is outside `[27, 34]`; in the accepted range it derives
`compressed = (header ≥ 31)` and recovery id `(header − 27) mod 4`,
runs the recovery engine with `check = false` on the big-endian `r` and
`s` words from bytes 1-32 and 33-64, and returns the recovered point on
success and `false` on any structural failure. -/
theorem C6_recoverCompact_structure {Point : Type} [ECModel Point] [DecidableEq Point]
    (hash v : List Nat) :
    (∀ st : CKeyState Point, v.length ≠ 65 →
      SetCompactSignature hash v st = (.ok false, st)) ∧
    (∀ st : CKeyState Point, v.length = 65 → (v.headI < 27 ∨ 35 ≤ v.headI) →
      SetCompactSignature hash v st = (.ok false, st)) ∧
    (v.length = 65 → 27 ≤ v.headI → v.headI < 35 →
      SetCompactSignature hash v (initKey Point) =
        (match ECDSA_SIG_recover_key_GFp Point (bytesToNat ((v.drop 1).take 32))
            (bytesToNat ((v.drop 33).take 32)) hash ((v.headI - 27) % 4) false with
         | .ok Q => (.ok true,
             ⟨⟨none, some Q, decide (31 ≤ v.headI)⟩, true, decide (31 ≤ v.headI)⟩)
         | _ => (.ok false,
             ⟨⟨none, none, decide (31 ≤ v.headI)⟩, false, decide (31 ≤ v.headI)⟩))) := by
  refine ⟨?_, ?_, ?_⟩
  · intro st hne
    unfold SetCompactSignature
    rw [if_pos hne]
  · intro st hlen hout
    unfold SetCompactSignature
    rw [if_neg (by omega)]
    dsimp only
    rw [if_pos hout]
  · intro hlen h27 h35
    unfold SetCompactSignature
    rw [if_neg (by omega)]
    dsimp only
    rw [if_neg (by omega)]
    by_cases h31 : 31 ≤ v.headI
    · rw [if_pos h31]
      have hrecid : v.headI - 4 - 27 = (v.headI - 27) % 4 := by omega
      rw [hrecid]
      have hdec : decide (31 ≤ v.headI) = true := decide_eq_true h31
      cases hrec : ECDSA_SIG_recover_key_GFp Point (bytesToNat ((v.drop 1).take 32))
          (bytesToNat ((v.drop 33).take 32)) hash ((v.headI - 27) % 4) false with
      | ok Q =>
        simp [h31, hdec, SetCompressedPubKey, initKey, freshPKey]
      | reject =>
        simp [h31, hdec, SetCompressedPubKey, initKey, freshPKey]
      | err =>
        simp [h31, hdec, SetCompressedPubKey, initKey, freshPKey]
    · rw [if_neg h31]
      have hrecid : v.headI - 27 = (v.headI - 27) % 4 := by omega
      conv_lhs => rw [hrecid]
      have hdec : decide (31 ≤ v.headI) = false := decide_eq_false h31
      cases hrec : ECDSA_SIG_recover_key_GFp Point (bytesToNat ((v.drop 1).take 32))
          (bytesToNat ((v.drop 33).take 32)) hash ((v.headI - 27) % 4) false with
      | ok Q =>
        simp [h31, hdec, SetCompressedPubKey, initKey, freshPKey]
      | reject =>
        simp [h31, hdec, SetCompressedPubKey, initKey, freshPKey]
      | err =>
        simp [h31, hdec, SetCompressedPubKey, initKey, freshPKey]

/-- C6 witness: headers 26 and 35 are rejected, header 34 is accepted
and recovers a point, all evaluated on the small model. -/
theorem C6_recoverCompact_structure_witness :
    SetCompactSignature [1] (26 :: List.replicate 64 0) (initKey Zm) =
      (.ok false, initKey Zm) ∧
    SetCompactSignature [1] (35 :: List.replicate 64 0) (initKey Zm) =
      (.ok false, initKey Zm) ∧
    SetCompactSignature [1]
        (34 :: (List.replicate 31 0 ++ [1]) ++ (List.replicate 31 0 ++ [1]))
        (initKey Zm) =
      (.ok true, ⟨⟨none, some 0, true⟩, true, true⟩) :=
  ⟨(C6_recoverCompact_structure [1] (26 :: List.replicate 64 0)).2.1
      (initKey Zm) (by decide) (by decide),
   (C6_recoverCompact_structure [1] (35 :: List.replicate 64 0)).2.1
      (initKey Zm) (by decide) (by decide),
   ((C6_recoverCompact_structure [1]
      (34 :: (List.replicate 31 0 ++ [1]) ++ (List.replicate 31 0 ++ [1]))).2.2
      (by decide) (by decide) (by decide)).trans rfl⟩

/-- One step of the recovery-id search, characterized against the own
public point: the throwaway key serializes its recovered point in the
same conversion form that `GetPubKey` uses on the own key, so by
injectivity of point serialization the comparison succeeds exactly when
the recovered point is the own point. -/
theorem recTry_eq {Point : Type} [ECModel Point] [DecidableEq Point]
    {st : CKeyState Point} {hash : List Nat} {sig_r sig_s : Nat} {P : Point}
    (hpub : st.pkey.pub = some P) (hconv : st.pkey.conv = st.fCompressedPubKey)
    (i : Nat) :
    recTry st hash sig_r sig_s i =
      .ok (decide (ECDSA_SIG_recover_key_GFp Point sig_r sig_s hash i true =
        .ok P)) := by
  unfold recTry GetPubKey
  cases hrec : ECDSA_SIG_recover_key_GFp Point sig_r sig_s hash i true with
  | ok Q =>
    rw [hpub]
    dsimp only
    have hkc : (if st.fCompressedPubKey then
        SetCompressedPubKey { initKey Point with fSet := true }
        else { initKey Point with fSet := true }).pkey.conv =
        st.fCompressedPubKey := by
      by_cases hf : st.fCompressedPubKey = true
      · rw [if_pos hf, hf]; rfl
      · rw [if_neg hf]
        simp only [Bool.not_eq_true] at hf
        rw [hf]; rfl
    rw [hkc, hconv]
    congr 1
    rw [decide_eq_decide]
    constructor
    · intro hser
      rw [ECModel.ser_inj Q P _ _ hser]
    · intro hQ
      rw [RecResult.ok.injEq] at hQ
      rw [hQ]
  | reject =>
    dsimp only
    rw [decide_eq_false (by simp)]
  | err =>
    dsimp only
    rw [decide_eq_false (by simp)]

/-- The recovery-id search returns the first id in 0..3 whose recovered
point is the own public point. -/
theorem findRecId_eq {Point : Type} [ECModel Point] [DecidableEq Point]
    {st : CKeyState Point} {hash : List Nat} {sig_r sig_s : Nat} {P : Point}
    (hpub : st.pkey.pub = some P) (hconv : st.pkey.conv = st.fCompressedPubKey) :
    findRecId st hash sig_r sig_s =
      .ok (if ECDSA_SIG_recover_key_GFp Point sig_r sig_s hash 0 true = .ok P then some 0
        else if ECDSA_SIG_recover_key_GFp Point sig_r sig_s hash 1 true = .ok P then some 1
        else if ECDSA_SIG_recover_key_GFp Point sig_r sig_s hash 2 true = .ok P then some 2
        else if ECDSA_SIG_recover_key_GFp Point sig_r sig_s hash 3 true = .ok P then some 3
        else none) := by
  unfold findRecId
  rw [recTry_eq hpub hconv 0, recTry_eq hpub hconv 1, recTry_eq hpub hconv 2,
    recTry_eq hpub hconv 3]
  by_cases h0 : ECDSA_SIG_recover_key_GFp Point sig_r sig_s hash 0 true = .ok P
  · simp [h0]
  · rw [if_neg h0]
    by_cases h1 : ECDSA_SIG_recover_key_GFp Point sig_r sig_s hash 1 true = .ok P
    · simp [h0, h1]
    · rw [if_neg h1]
      by_cases h2 : ECDSA_SIG_recover_key_GFp Point sig_r sig_s hash 2 true = .ok P
      · simp [h0, h1, h2]
      · rw [if_neg h2]
        by_cases h3 : ECDSA_SIG_recover_key_GFp Point sig_r sig_s hash 3 true = .ok P
        · simp [h0, h1, h2, h3]
        · simp [h0, h1, h2, h3]

/-- The 32-byte field written by `BN_bn2bin` for a value of at most 256
bits has exactly 32 bytes. -/
theorem padTo32_length {x : Nat} (hb : numBits x ≤ 256) :
    (padTo 32 (natToBEBytes x)).length = 32 :=
  padTo_length 32 _ (natToBEBytes_length_le x 32
    (by rw [(by norm_num : (256 : Nat) ^ 32 = 2 ^ 256)]
        exact (numBits_le_iff x 256).mp hb))

/-- Inversion of a successful `SignCompact`: the signature components
passed the 256-bit check and the output has the documented layout for
the first matching recovery id. -/
theorem signCompact_ok_inv {Point : Type} [ECModel Point] [DecidableEq Point]
    {st : CKeyState Point} {hash : List Nat} {sig_r sig_s : Nat} {P : Point}
    (hpub : st.pkey.pub = some P) (hconv : st.pkey.conv = st.fCompressedPubKey)
    {out : List Nat} (hout : SignCompact st hash sig_r sig_s = .ok (some out)) :
    numBits sig_r ≤ 256 ∧ numBits sig_s ≤ 256 ∧
    out.length = 65 ∧
    ∃ id, id < 4 ∧
      ECDSA_SIG_recover_key_GFp Point sig_r sig_s hash id true = .ok P ∧
      (∀ j < id, ECDSA_SIG_recover_key_GFp Point sig_r sig_s hash j true ≠ .ok P) ∧
      out = (27 + id + if st.fCompressedPubKey then 4 else 0) ::
        (padTo 32 (natToBEBytes sig_r) ++ padTo 32 (natToBEBytes sig_s)) := by
  unfold SignCompact at hout
  by_cases hbits : numBits sig_r ≤ 256 ∧ numBits sig_s ≤ 256
  · rw [if_pos hbits, findRecId_eq hpub hconv] at hout
    have hlr : (padTo 32 (natToBEBytes sig_r)).length = 32 := padTo32_length hbits.1
    have hls : (padTo 32 (natToBEBytes sig_s)).length = 32 := padTo32_length hbits.2
    have hgoal : ∀ id : Nat, id < 4 →
        out = (id + 27 + if st.fCompressedPubKey then 4 else 0) ::
          (padTo 32 (natToBEBytes sig_r) ++ padTo 32 (natToBEBytes sig_s)) →
        ECDSA_SIG_recover_key_GFp Point sig_r sig_s hash id true = .ok P →
        (∀ j < id, ECDSA_SIG_recover_key_GFp Point sig_r sig_s hash j true ≠ .ok P) →
        numBits sig_r ≤ 256 ∧ numBits sig_s ≤ 256 ∧
        out.length = 65 ∧ ∃ id1, id1 < 4 ∧
          ECDSA_SIG_recover_key_GFp Point sig_r sig_s hash id1 true = .ok P ∧
          (∀ j < id1, ECDSA_SIG_recover_key_GFp Point sig_r sig_s hash j true ≠ .ok P) ∧
          out = (27 + id1 + if st.fCompressedPubKey then 4 else 0) ::
            (padTo 32 (natToBEBytes sig_r) ++ padTo 32 (natToBEBytes sig_s)) := by
      intro id hid hout1 hok hfirst
      refine ⟨hbits.1, hbits.2, ?_, id, hid, hok, hfirst, ?_⟩
      · rw [hout1]
        simp [hlr, hls]
      · rw [hout1, Nat.add_comm id 27]
    by_cases h0 : ECDSA_SIG_recover_key_GFp Point sig_r sig_s hash 0 true = .ok P
    · rw [if_pos h0] at hout
      dsimp only at hout
      injection hout with hout2
      injection hout2 with hout3
      exact hgoal 0 (by omega) hout3.symm h0 (by omega)
    · rw [if_neg h0] at hout
      by_cases h1 : ECDSA_SIG_recover_key_GFp Point sig_r sig_s hash 1 true = .ok P
      · rw [if_pos h1] at hout
        dsimp only at hout
        injection hout with hout2
        injection hout2 with hout3
        exact hgoal 1 (by omega) hout3.symm h1 (by
          intro j hj
          interval_cases j
          · exact h0)
      · rw [if_neg h1] at hout
        by_cases h2 : ECDSA_SIG_recover_key_GFp Point sig_r sig_s hash 2 true = .ok P
        · rw [if_pos h2] at hout
          dsimp only at hout
          injection hout with hout2
          injection hout2 with hout3
          exact hgoal 2 (by omega) hout3.symm h2 (by
            intro j hj
            interval_cases j
            · exact h0
            · exact h1)
        · rw [if_neg h2] at hout
          by_cases h3 : ECDSA_SIG_recover_key_GFp Point sig_r sig_s hash 3 true = .ok P
          · rw [if_pos h3] at hout
            dsimp only at hout
            injection hout with hout2
            injection hout2 with hout3
            exact hgoal 3 (by omega) hout3.symm h3 (by
              intro j hj
              interval_cases j
              · exact h0
              · exact h1
              · exact h2)
          · rw [if_neg h3] at hout
            dsimp only at hout
            cases hout
  · rw [if_neg hbits] at hout
    cases hout

/-- C5: a successful `CKey::SignCompact` output is exactly 65 bytes:
header `27 + id (+4 when the key is compressed)`, then `r` and then `s`
each big-endian and left-padded with zeros to 32 bytes; the id is the
first in 0..3 whose `check = true` recovery yields the own public
point; and when no id in 0..3 matches (and the signature passed the
256-bit size check) the call fails with the hard
`RecoveryExhausted` error instead of returning something. -/
theorem C5_signCompact_structure {Point : Type} [ECModel Point] [DecidableEq Point]
    (st : CKeyState Point) (hash : List Nat) (sig_r sig_s : Nat) (P : Point)
    (hpub : st.pkey.pub = some P) (hconv : st.pkey.conv = st.fCompressedPubKey) :
    (∀ out, SignCompact st hash sig_r sig_s = .ok (some out) →
      out.length = 65 ∧
      ∃ id, id < 4 ∧
        ECDSA_SIG_recover_key_GFp Point sig_r sig_s hash id true = .ok P ∧
        (∀ j < id, ECDSA_SIG_recover_key_GFp Point sig_r sig_s hash j true ≠ .ok P) ∧
        out = (27 + id + if st.fCompressedPubKey then 4 else 0) ::
          (padTo 32 (natToBEBytes sig_r) ++ padTo 32 (natToBEBytes sig_s))) ∧
    ((∀ i, i < 4 → ECDSA_SIG_recover_key_GFp Point sig_r sig_s hash i true ≠ .ok P) →
      numBits sig_r ≤ 256 → numBits sig_s ≤ 256 →
      SignCompact st hash sig_r sig_s = .error .recoveryExhausted) := by
  constructor
  · intro out hout
    exact (signCompact_ok_inv hpub hconv hout).2.2
  · intro hall hbr hbs
    unfold SignCompact
    rw [if_pos ⟨hbr, hbs⟩, findRecId_eq hpub hconv]
    rw [if_neg (hall 0 (by omega)), if_neg (hall 1 (by omega)),
      if_neg (hall 2 (by omega)), if_neg (hall 3 (by omega))]

/-- C5 witness: on the small model with own public point `1`, no
recovery id in 0..3 matches for `r = s = 1` over digest `[1]`, so
`SignCompact` fails with the hard `RecoveryExhausted` error. -/
theorem C5_signCompact_structure_witness :
    SignCompact (⟨⟨some 1, some 1, false⟩, true, false⟩ : CKeyState Zm) [1] 1 1 =
      .error .recoveryExhausted :=
  (C5_signCompact_structure ⟨⟨some 1, some 1, false⟩, true, false⟩ [1] 1 1 1
    rfl rfl).2 (by decide) (by decide) (by decide)

/-- C7: recovering from an own compact signature returns exactly the
own public point, for compressed and uncompressed keys alike.  When
`SignCompact` succeeds, running `SetCompactSignature` (the spec name is
`recoverCompact`) on a fresh key with the produced 65 bytes succeeds,
installs exactly the public point of the signing key, and derives the
same compressed flag.  No assumption is made on `(r, s)` beyond what
`SignCompact` itself checked: the round trip is forced by the
determinism of the recovery engine and the header encoding. -/
theorem C7_compact_roundtrip {Point : Type} [ECModel Point] [DecidableEq Point]
    (st : CKeyState Point) (hash : List Nat) (sig_r sig_s : Nat) (P : Point)
    (sig : List Nat)
    (hpub : st.pkey.pub = some P) (hconv : st.pkey.conv = st.fCompressedPubKey)
    (hsig : SignCompact st hash sig_r sig_s = .ok (some sig)) :
    (SetCompactSignature hash sig (initKey Point)).1 = .ok true ∧
    (SetCompactSignature hash sig (initKey Point)).2.pkey.pub = some P ∧
    (SetCompactSignature hash sig (initKey Point)).2.fSet = true ∧
    (SetCompactSignature hash sig (initKey Point)).2.fCompressedPubKey =
      st.fCompressedPubKey := by
  obtain ⟨hbr, hbs, hlen65, id, hid, hok, hfirst, hout⟩ :=
    signCompact_ok_inv hpub hconv hsig
  subst hout
  have hlr := padTo32_length hbr
  have hls := padTo32_length hbs
  have hrec0 := recover_check_relax hok
  have hdropr : ∀ hdr : Nat, (((hdr :: (padTo 32 (natToBEBytes sig_r) ++
      padTo 32 (natToBEBytes sig_s))).drop 1).take 32) =
      padTo 32 (natToBEBytes sig_r) := by
    intro hdr
    rw [List.drop_one, List.tail_cons, List.take_left' hlr]
  have hdrops : ∀ hdr : Nat, (((hdr :: (padTo 32 (natToBEBytes sig_r) ++
      padTo 32 (natToBEBytes sig_s))).drop 33).take 32) =
      padTo 32 (natToBEBytes sig_s) := by
    intro hdr
    rw [List.drop_succ_cons, List.drop_left' hlr, List.take_of_length_le (le_of_eq hls)]
  by_cases hf : st.fCompressedPubKey = true
  · have hhdr : (27 + id + if st.fCompressedPubKey = true then 4 else 0) =
        27 + id + 4 := by rw [if_pos hf]
    rw [hhdr, hf]
    unfold SetCompactSignature
    rw [if_neg (by simp [hlr, hls])]
    dsimp only [List.headI]
    rw [if_neg (by omega)]
    rw [hdropr, hdrops, bytesToNat_padTo, bytesToNat_padTo]
    simp only [if_pos (show (31 : Nat) ≤ 27 + id + 4 by omega)]
    have hrid : 27 + id + 4 - 4 - 27 = id := by omega
    rw [hrid, hrec0]
    exact ⟨rfl, rfl, rfl, rfl⟩
  · have hhdr : (27 + id + if st.fCompressedPubKey = true then 4 else 0) =
        27 + id := by rw [if_neg hf]; omega
    simp only [Bool.not_eq_true] at hf
    rw [hhdr, hf]
    unfold SetCompactSignature
    rw [if_neg (by simp [hlr, hls])]
    dsimp only [List.headI]
    rw [if_neg (by omega)]
    rw [hdropr, hdrops, bytesToNat_padTo, bytesToNat_padTo]
    simp only [if_neg (show ¬ (31 : Nat) ≤ 27 + id by omega)]
    have hrid : 27 + id - 27 = id := by omega
    rw [hrid, hrec0]
    exact ⟨rfl, rfl, rfl, rfl⟩

/-- C7 witness: on the small model, the key with public point 0 signs
`(r, s) = (1, 1)` over digest `[1]` as header 27 plus the two padded
words, and recovering from that compact signature returns exactly the
point 0 with the compressed flag preserved. -/
theorem C7_compact_roundtrip_witness :
    (SetCompactSignature [1]
        (27 :: (List.replicate 31 0 ++ [1]) ++ (List.replicate 31 0 ++ [1]))
        (initKey Zm)).1 = .ok true ∧
    (SetCompactSignature [1]
        (27 :: (List.replicate 31 0 ++ [1]) ++ (List.replicate 31 0 ++ [1]))
        (initKey Zm)).2.pkey.pub = some 0 ∧
    (SetCompactSignature [1]
        (27 :: (List.replicate 31 0 ++ [1]) ++ (List.replicate 31 0 ++ [1]))
        (initKey Zm)).2.fSet = true ∧
    (SetCompactSignature [1]
        (27 :: (List.replicate 31 0 ++ [1]) ++ (List.replicate 31 0 ++ [1]))
        (initKey Zm)).2.fCompressedPubKey = false :=
  C7_compact_roundtrip ⟨⟨some 1, some 0, false⟩, true, false⟩ [1] 1 1 0
    (27 :: (List.replicate 31 0 ++ [1]) ++ (List.replicate 31 0 ++ [1]))
    rfl rfl (by rfl)

/-- C8: extracting the secret of a KeyPair holding a private scalar
(`CKey::GetSecret`) and re-importing it (`CKey::SetSecret`) preserves
both the 32-byte big-endian secret and the compressed flag: the second
extraction returns exactly the same pair. -/
theorem C8_secret_roundtrip {Point : Type} [ECModel Point]
    (st : CKeyState Point) (d : Nat)
    (hd : st.pkey.priv = some d) (hlt : d < 2 ^ 256) :
    GetSecret st = .ok (padTo 32 (natToBEBytes d), st.fCompressedPubKey) ∧
    (SetSecret (padTo 32 (natToBEBytes d)) st.fCompressedPubKey (initKey Point)).1 =
      .ok true ∧
    GetSecret (SetSecret (padTo 32 (natToBEBytes d)) st.fCompressedPubKey
        (initKey Point)).2 =
      .ok (padTo 32 (natToBEBytes d), st.fCompressedPubKey) := by
  have hlen : (natToBEBytes d).length ≤ 32 := natToBEBytes_length_le d 32
    (by rw [(by norm_num : (256 : Nat) ^ 32 = 2 ^ 256)]; exact hlt)
  have hblen : (padTo 32 (natToBEBytes d)).length = 32 := padTo_length 32 _ hlen
  have hget : GetSecret st = .ok (padTo 32 (natToBEBytes d), st.fCompressedPubKey) := by
    unfold GetSecret
    rw [hd]
    dsimp only
    rw [if_neg (by omega)]
  refine ⟨hget, ?_, ?_⟩
  · unfold SetSecret
    rw [if_neg (by rw [hblen]; omega)]
    dsimp only
    by_cases hc : st.fCompressedPubKey = true
    · rw [hc]
      rfl
    · simp only [Bool.not_eq_true] at hc
      rw [hc]
      rfl
  · unfold SetSecret
    rw [if_neg (by rw [hblen]; omega)]
    dsimp only
    have hpriv : bytesToNat (padTo 32 (natToBEBytes d)) = d := bytesToNat_padTo 32 d
    have hif : ¬ (32 < (natToBEBytes d).length) := by omega
    by_cases hc : st.fCompressedPubKey = true
    · rw [hc]
      simp [GetSecret, SetCompressedPubKey, EC_KEY_regenerate_key, freshPKey,
        initKey, hpriv, hif]
    · simp only [Bool.not_eq_true] at hc
      rw [hc]
      simp [GetSecret, SetCompressedPubKey, EC_KEY_regenerate_key, freshPKey,
        initKey, hpriv, hif]

/-- C8 witness: the round trip evaluated for the secret value 5 on a
compressed key. -/
theorem C8_secret_roundtrip_witness :
    GetSecret (⟨⟨some 5, none, true⟩, true, true⟩ : CKeyState Zm) =
      .ok (padTo 32 (natToBEBytes 5), true) ∧
    (SetSecret (padTo 32 (natToBEBytes 5)) true (initKey Zm)).1 =
      .ok true ∧
    GetSecret (SetSecret (padTo 32 (natToBEBytes 5)) true
        (initKey Zm)).2 =
      .ok (padTo 32 (natToBEBytes 5), true) :=
  C8_secret_roundtrip ⟨⟨some 5, none, true⟩, true, true⟩ 5 rfl (by norm_num)

/-- C9 counterexample: the claim states that every re-keying operation
leaves a consistent no-key state on failure.  `CKey::SetSecret` does
not: it frees and replaces the key handle before validating the secret
length, so calling it with a 31-byte secret on a previously set key
throws while leaving `fSet = true` over a fresh handle that holds no
key material at all — a mixture of old flags and a new empty handle. -/
theorem C9_counterexample :
    (SetSecret (List.replicate 31 0) false
        (SetSecret (List.replicate 32 1) false (initKey Zm)).2).1 =
      .error .secretWrongSize ∧
    (SetSecret (List.replicate 31 0) false
        (SetSecret (List.replicate 32 1) false (initKey Zm)).2).2.fSet =
      true ∧
    (SetSecret (List.replicate 31 0) false
        (SetSecret (List.replicate 32 1) false
          (initKey Zm)).2).2.pkey.priv = none ∧
    (SetSecret (List.replicate 31 0) false
        (SetSecret (List.replicate 32 1) false
          (initKey Zm)).2).2.pkey.pub = none :=
  ⟨rfl, rfl, rfl, rfl⟩

/-- C9 (amended): the failure behaviour of the re-keying operations,
per operation.  `CKey::SetPubKey` is atomic in the claimed sense: on
parse failure it abandons the handle and `Reset()` leaves the exact
fresh not-set state with the compressed flag cleared.  `CKey::SetPrivKey`
likewise ends in the fresh not-set state on both of its failure paths
(decode failure, and a decoded key failing `EC_KEY_check_key`).  The
early-return failures of `CKey::SetCompactSignature` (wrong length,
out-of-range header) leave the object completely untouched — the old
key survives.  But after its handle swap, a recovery failure in
`SetCompactSignature` leaves the old `fSet` (and, for headers below 31,
the old compressed flag) over a fresh handle holding no key material —
not a consistent no-key state; `SetSecret` is likewise not atomic, as
the counterexample shows. -/
theorem C9_rekey_failure_behaviour {Point : Type} [ECModel Point]
    [DecidableEq Point] (hash v : List Nat) :
    (∀ st : CKeyState Point, @ECModel.o2i Point _ v = none →
      SetPubKey v st = (.ok false, initKey Point)) ∧
    (∀ (d2i : List Nat → Option (PKeyState Point))
        (check : PKeyState Point → Bool) (st : CKeyState Point),
      (d2i v = none → SetPrivKey d2i check v st = (.ok false, initKey Point)) ∧
      (∀ pk, d2i v = some pk → check pk = false →
        SetPrivKey d2i check v st = (.ok false, initKey Point))) ∧
    (∀ st : CKeyState Point, v.length ≠ 65 →
      SetCompactSignature hash v st = (.ok false, st)) ∧
    (∀ st : CKeyState Point, v.length = 65 → (v.headI < 27 ∨ 35 ≤ v.headI) →
      SetCompactSignature hash v st = (.ok false, st)) ∧
    (∀ st : CKeyState Point, v.length = 65 → 27 ≤ v.headI → v.headI < 35 →
      (∀ Q : Point, ECDSA_SIG_recover_key_GFp Point
          (bytesToNat ((v.drop 1).take 32)) (bytesToNat ((v.drop 33).take 32))
          hash ((v.headI - 27) % 4) false ≠ .ok Q) →
      SetCompactSignature hash v st =
        (.ok false, ⟨⟨none, none, decide (31 ≤ v.headI)⟩, st.fSet,
          if 31 ≤ v.headI then true else st.fCompressedPubKey⟩)) := by
  refine ⟨?_, ?_, ?_, ?_, ?_⟩
  · intro st ho
    unfold SetPubKey
    rw [ho]
  · intro d2i check st
    constructor
    · intro hd
      unfold SetPrivKey
      rw [hd]
    · intro pk hd hc
      unfold SetPrivKey
      rw [hd]
      dsimp only
      rw [if_neg (by rw [hc]; exact Bool.false_ne_true)]
  · intro st hw
    unfold SetCompactSignature
    rw [if_pos hw]
  · intro st hlen hout
    unfold SetCompactSignature
    rw [if_neg (by omega)]
    dsimp only
    rw [if_pos hout]
  · intro st hlen h27 h35 hne
    unfold SetCompactSignature
    rw [if_neg (by omega)]
    dsimp only
    rw [if_neg (by omega)]
    by_cases h31 : 31 ≤ v.headI
    · rw [if_pos h31]
      have hrecid : v.headI - 4 - 27 = (v.headI - 27) % 4 := by omega
      rw [hrecid]
      have hdec : decide (31 ≤ v.headI) = true := decide_eq_true h31
      cases hrec : ECDSA_SIG_recover_key_GFp Point (bytesToNat ((v.drop 1).take 32))
          (bytesToNat ((v.drop 33).take 32)) hash ((v.headI - 27) % 4) false with
      | ok Q => exact absurd hrec (hne Q)
      | reject =>
        simp [h31, hdec, SetCompressedPubKey, initKey, freshPKey]
      | err =>
        simp [h31, hdec, SetCompressedPubKey, initKey, freshPKey]
    · rw [if_neg h31]
      have hrecid : v.headI - 27 = (v.headI - 27) % 4 := by omega
      conv_lhs => rw [hrecid]
      have hdec : decide (31 ≤ v.headI) = false := decide_eq_false h31
      cases hrec : ECDSA_SIG_recover_key_GFp Point (bytesToNat ((v.drop 1).take 32))
          (bytesToNat ((v.drop 33).take 32)) hash ((v.headI - 27) % 4) false with
      | ok Q => exact absurd hrec (hne Q)
      | reject =>
        simp [h31, hdec, SetCompressedPubKey, initKey, freshPKey]
      | err =>
        simp [h31, hdec, SetCompressedPubKey, initKey, freshPKey]

/-- C9 witness: on a previously set compressed key, a rejected
public-key string and a failing private-key decode both reset to the
fresh not-set state; a 64-byte compact signature is rejected without
any mutation; and a 65-byte compact signature with header 27 whose
recovery fails (its `r` word is far above the field prime) leaves the
old `fSet = true` and old compressed flag over an emptied handle. -/
theorem C9_rekey_failure_behaviour_witness :
    SetPubKey [4, 4] (⟨⟨some 3, some 1, true⟩, true, true⟩ : CKeyState Zm) =
      (.ok false, initKey Zm) ∧
    SetPrivKey (fun _ => none) (fun _ => false) [9]
        (⟨⟨some 3, some 1, true⟩, true, true⟩ : CKeyState Zm) =
      (.ok false, initKey Zm) ∧
    SetCompactSignature [1] (List.replicate 64 0)
        (⟨⟨some 3, some 1, true⟩, true, true⟩ : CKeyState Zm) =
      (.ok false, ⟨⟨some 3, some 1, true⟩, true, true⟩) ∧
    SetCompactSignature [1] (27 :: List.replicate 64 0xff)
        (⟨⟨some 3, some 1, true⟩, true, true⟩ : CKeyState Zm) =
      (.ok false, ⟨⟨none, none, false⟩, true, true⟩) :=
  ⟨(C9_rekey_failure_behaviour [4, 4] [4, 4]).1
      (⟨⟨some 3, some 1, true⟩, true, true⟩ : CKeyState Zm) rfl,
   ((C9_rekey_failure_behaviour [1] [9]).2.1 (fun _ => none) (fun _ => false)
      (⟨⟨some 3, some 1, true⟩, true, true⟩ : CKeyState Zm)).1 rfl,
   (C9_rekey_failure_behaviour [1] (List.replicate 64 0)).2.2.1
      (⟨⟨some 3, some 1, true⟩, true, true⟩ : CKeyState Zm) (by decide),
   (C9_rekey_failure_behaviour [1] (27 :: List.replicate 64 0xff)).2.2.2.2
      (⟨⟨some 3, some 1, true⟩, true, true⟩ : CKeyState Zm)
      (by decide) (by decide) (by decide) (by decide)⟩

end MagiKey
